import Mathlib

/-!
Verification of the resampling and contrast-correction core of the
cg22-project-Abobus image editor against its specification.

The embedding follows the Python source:

* `lib/painters/hist_painter.py` — histogram computation
  (`compute_hist_for_channel`), automatic contrast correction
  (`auto_contrast_correction`) and the tone-curve application
  (`image_channel_from_hist`);
* `lib/image_transforms/img_format_transformer.py` — nearest-neighbour
  (`resize_neighbour`), bilinear (`bilinear_resize`) and Mitchell-Netravali
  (`mitchell`) resamplers.

Modelling conventions:

* machine reals (numpy float64) are modelled as exact rationals; all the
  arithmetic the theorems below touch is exact in float64, except where a
  rounding difference is itself the subject of a theorem: there (the index
  computation of C9) the binary64 round-to-nearest-even function is embedded
  explicitly as `fl64`.  Because the arithmetic of Lean's built-in `Rat`
  does not reduce inside the kernel, the embedding carries its own
  kernel-computable fraction type `Q`, with a value map `Q.toRat` into `ℚ`
  usable by symbolic proofs;
* numpy's cast of a float to `uint8` (`astype(np.uint8)`) truncates toward
  zero and then wraps modulo 256 (x86 behaviour); this is `toU8`;
* numpy `uint8` multiplication wraps modulo 256, which the embedding writes
  explicitly as `% 256`;
* a numpy float division by zero does not raise: it produces NaN.  Where a
  whole result is NaN-poisoned (`image_channel_from_hist` with a constant
  cumulative histogram) the embedding returns `none`; where a claim is about
  reaching the zero divisor, the theorem states the divisor itself;
* Python exceptions (`ValueError` from `np.zeros`/`Image.new` on negative
  sizes, `ZeroDivisionError` from a zero scale denominator) make a transform
  return `none`: the shared current-image state is then left unchanged.
-/

set_option maxRecDepth 40000

namespace CG22

/-- Exact rationals as normalised fractions (nonnegative denominator, coprime
with the numerator).  Every constructor below keeps the denominator positive,
so two values built by the operations are equal as fractions exactly when
they are structurally equal. -/
structure Q where
  num : ℤ
  den : ℕ
deriving DecidableEq, Repr

/-- Normalising constructor: `Q.mk2 n d` is the fraction `n / d` in lowest
terms with positive denominator (and the junk value `0` when `d = 0`, the
same convention Mathlib uses for field division). -/
def Q.mk2 (n d : ℤ) : Q :=
  if d = 0 then ⟨0, 1⟩
  else
    let n2 : ℤ := if d < 0 then -n else n
    let dn : ℕ := d.natAbs
    let g : ℕ := Nat.gcd n2.natAbs dn
    ⟨Int.tdiv n2 (g : ℤ), dn / g⟩

instance : NatCast Q := ⟨fun n => ⟨(n : ℤ), 1⟩⟩

instance : IntCast Q := ⟨fun n => ⟨n, 1⟩⟩

instance (n : ℕ) : OfNat Q n := ⟨⟨(n : ℤ), 1⟩⟩

instance : Add Q := ⟨fun a b => Q.mk2 (a.num * b.den + b.num * a.den) ((a.den : ℤ) * b.den)⟩

instance : Sub Q := ⟨fun a b => Q.mk2 (a.num * b.den - b.num * a.den) ((a.den : ℤ) * b.den)⟩

instance : Mul Q := ⟨fun a b => Q.mk2 (a.num * b.num) ((a.den : ℤ) * b.den)⟩

instance : Div Q := ⟨fun a b => Q.mk2 (a.num * b.den) ((a.den : ℤ) * b.num)⟩

instance : Neg Q := ⟨fun a => ⟨-a.num, a.den⟩⟩

instance : LE Q := ⟨fun a b => a.num * b.den ≤ b.num * a.den⟩

instance : LT Q := ⟨fun a b => a.num * b.den < b.num * a.den⟩

instance (a b : Q) : Decidable (a ≤ b) :=
  inferInstanceAs (Decidable (a.num * b.den ≤ b.num * a.den))

instance (a b : Q) : Decidable (a < b) :=
  inferInstanceAs (Decidable (a.num * b.den < b.num * a.den))

/-- Floor of a fraction (exact, via flooring integer division). -/
def Q.floor (a : Q) : ℤ := Int.fdiv a.num (a.den : ℤ)

/-- Ceiling of a fraction. -/
def Q.ceil (a : Q) : ℤ := -(Int.fdiv (-a.num) (a.den : ℤ))

/-- Truncation of a fraction toward zero, as a C float-to-integer cast does. -/
def Q.trunc (a : Q) : ℤ := Int.tdiv a.num (a.den : ℤ)

/-- Absolute value of a fraction. -/
def Q.qabs (a : Q) : Q := ⟨(a.num.natAbs : ℤ), a.den⟩

/-- Minimum of two fractions. -/
def Q.qmin (a b : Q) : Q := if a ≤ b then a else b

/-- Maximum of two fractions. -/
def Q.qmax (a b : Q) : Q := if a ≤ b then b else a

/-- The value of a fraction as a Mathlib rational, used to transfer symbolic
facts about `Q` arithmetic to the `ℚ` field. -/
def Q.toRat (a : Q) : ℚ := (a.num : ℚ) / (a.den : ℚ)

/-- Numpy `astype(np.uint8)` applied to a float64 value: truncate toward zero,
then wrap modulo 256 (x86 behaviour). -/
def toU8 (q : Q) : ℕ := ((Q.trunc q).emod 256).toNat

/-- Down-cast as the specification demands it: clamp to `[0, 255]` first, then
truncate to the integer sample type. -/
def clampedCast (q : Q) : ℕ := (Q.trunc (Q.qmin (Q.qmax q 0) 255)).toNat

/-- A single channel plane: a list of rows of integer samples. -/
abbrev Plane := List (List ℕ)

/-- An RGB pixel. -/
abbrev Pix := ℕ × ℕ × ℕ

/-- An RGB image: a list of rows of pixels (numpy axis 0 first). -/
abbrev GridRGB := List (List Pix)

/-- One step of the histogram loop `hist[i] += 1`. -/
def histStep (h : List ℕ) (v : ℕ) : List ℕ := h.set v (h.getD v 0 + 1)

/-- Embedding of `ImageHistPlotter.compute_hist_for_channel`: a single linear
pass over the samples of a channel plane, incrementing the bucket matching
each sample value.  The Python buckets live in a float64 array; counts are
exact there, so buckets are `ℕ` here. -/
def compute_hist_for_channel (img : Plane) : List ℕ :=
  img.flatten.foldl histStep (List.replicate 256 0)

/-- The histogram actually used inside `auto_contrast_correction`: the code
down-casts the float histogram with `astype(np.uint8)`, reducing every bucket
count modulo 256. -/
def castHist (img : Plane) : List ℕ :=
  (compute_hist_for_channel img).map (fun c => c % 256)

/-- Numpy `cumsum` (the `uint8` input is up-cast to a wide integer, so no
wrapping): entry `k` is the sum of the first `k + 1` buckets. -/
def cumsum (l : List ℕ) : List ℕ :=
  (List.range l.length).map (fun k => ((l.take (k + 1)).sum))

/-- Python `min` over a list (the code only applies it to nonempty lists; on
`[]` Python would raise, the default `0` here is never exercised by the
theorems). -/
def listMin (l : List ℕ) : ℕ :=
  match l with
  | [] => 0
  | x :: xs => xs.foldl Nat.min x

/-- Python `max` over a list, same conventions as `listMin`. -/
def listMax (l : List ℕ) : ℕ :=
  match l with
  | [] => 0
  | x :: xs => xs.foldl Nat.max x

/-- Numpy `np.percentile` with the default linear interpolation: sort the
data, take the virtual index `p/100 * (n-1)`, and interpolate between the two
neighbouring order statistics. -/
def percentileQ (l : List ℕ) (p : Q) : Q :=
  let s := List.insertionSort (fun a b => a ≤ b) l
  let v : Q := p * ((l.length : Q) - 1) / 100
  let k : ℕ := (Q.floor v).toNat
  let lo : Q := ((s.getD k 0 : ℕ) : Q)
  let hi : Q := ((s.getD (k + 1) (s.getD k 0) : ℕ) : Q)
  lo + (v - (k : Q)) * (hi - lo)

/-- The code's `a_low`: `min([hist[i] for i in range(len(hist)) if hist[i] >= q_low])`. -/
def aLowOf (h : List ℕ) (qLow : Q) : ℕ :=
  listMin (h.filter (fun c => decide (qLow ≤ ((c : ℕ) : Q))))

/-- The code's `a_high`: `max([hist[i] for i in range(len(hist)) if hist[i] <= q_high])`. -/
def aHighOf (h : List ℕ) (qHigh : Q) : ℕ :=
  listMax (h.filter (fun c => decide (((c : ℕ) : Q) ≤ qHigh)))

/-- The inner `formula` of `auto_contrast_correction`, with numpy `uint8`
semantics: the subtractions happen inside branches that keep them
nonnegative, the product `(pixel - a_low) * (a_max - a_min)` is `uint8`
arithmetic and so wraps modulo 256, the division is float division, and the
vectorised result is down-cast with `astype(np.uint8)`.  When
`a_high = a_low` numpy produces NaN (`0/0`) instead of raising; the theorems
below only evaluate this function away from that degenerate divisor. -/
def contrastFormula (aMin aMax aLow aHigh pixel : ℕ) : ℕ :=
  if pixel < aLow then aMin
  else if pixel ≤ aHigh then
    toU8 ((aMin : Q) + ((((pixel - aLow) * (aMax - aMin)) % 256 : ℕ) : Q) / (((aHigh - aLow : ℕ)) : Q))
  else aMax

/-- The percentile-clip-and-remap branch of `auto_contrast_correction`
(taken when `ignore_range` is truthy): percentile ranks are `int(...)`
truncations, bounds and extremes are taken over the bucket counts, and every
bucket is remapped through `contrastFormula`. -/
def contrastRemap (h : List ℕ) (ir : Q) : List ℕ :=
  let pmin : ℕ := (Q.trunc (ir * 100)).toNat
  let pmax : ℕ := (Q.trunc ((1 - ir) * 100)).toNat
  let qLow := percentileQ h (pmin : Q)
  let qHigh := percentileQ h (pmax : Q)
  let aMin := listMin h
  let aMax := listMax h
  let aLow := aLowOf h qLow
  let aHigh := aHighOf h qHigh
  h.map (contrastFormula aMin aMax aLow aHigh)

/-- Embedding of `ImageHistPlotter.auto_contrast_correction`: compute the
channel histogram, down-cast it to `uint8`, and, when `ignore_range` is
truthy (nonzero), apply the percentile clip and remap. -/
def auto_contrast_correction (img : Plane) (ir : Q) : List ℕ :=
  let h := castHist img
  if ir = 0 then h else contrastRemap h ir

/-- Embedding of `ImageHistPlotter.image_channel_from_hist`: cumulative sum of
the histogram, rescaled so its minimum maps to 0 and its maximum to 255, cast
to `uint8`, then used as a lookup table on the channel plane.  When the
cumulative histogram is constant the rescaling divides by zero and numpy
NaN-poisons the whole lookup table; that outcome is modelled as `none`. -/
def image_channel_from_hist (h : List ℕ) (img : Plane) : Option Plane :=
  let cs := cumsum h
  let mn := listMin cs
  let mx := listMax cs
  if mx = mn then none
  else
    let scaled := cs.map (fun c => toU8 ((((c : ℕ) : Q) - (mn : Q)) * 255 / ((mx : Q) - (mn : Q))))
    some (img.map (fun row => row.map (fun v => scaled.getD v 0)))

/-- One channel of `ImageHistPlotter.apply_contrast_correction`: contrast
correction followed by the tone-curve lookup. -/
def contrastChannel (img : Plane) (ir : Q) : Option Plane :=
  image_channel_from_hist (auto_contrast_correction img ir) img

/-- Formalisation of the C6 wording, for comparison with the code: exact
(untruncated) percentile ranks `ignoreRange·100` and `(1−ignoreRange)·100`,
and the exact remap `aMin + (count − aLow)·(aMax − aMin)/(aHigh − aLow)` with
no modular reduction and no down-cast. -/
def specRemapC6 (h : List ℕ) (ir : Q) : List Q :=
  let qLow := percentileQ h (ir * 100)
  let qHigh := percentileQ h ((1 - ir) * 100)
  let aMin := listMin h
  let aMax := listMax h
  let aLow := aLowOf h qLow
  let aHigh := aHighOf h qHigh
  h.map (fun c =>
    if ((c : ℕ) : Q) < (aLow : Q) then ((aMin : ℕ) : Q)
    else if ((c : ℕ) : Q) ≤ (aHigh : Q) then
      (aMin : Q) + (((c : ℕ) : Q) - (aLow : Q)) * ((aMax : Q) - (aMin : Q)) / ((aHigh : Q) - (aLow : Q))
    else ((aMax : ℕ) : Q))

/-- The amended C6 description, following the code: percentile ranks are the
integer truncations `int(ir·100)` and `int((1−ir)·100)`, the stretch product
is reduced modulo 256 by the `uint8` arithmetic, and the remapped value is
truncated to `uint8`. -/
def amendedRemapC6 (h : List ℕ) (ir : Q) : List ℕ :=
  let qLow := percentileQ h (((Q.trunc (ir * 100)).toNat : Q))
  let qHigh := percentileQ h (((Q.trunc ((1 - ir) * 100)).toNat : Q))
  let aMin := listMin h
  let aMax := listMax h
  let aLow := aLowOf h qLow
  let aHigh := aHighOf h qHigh
  h.map (fun c =>
    if c < aLow then aMin
    else if c ≤ aHigh then
      toU8 ((aMin : Q) + ((((c - aLow) * (aMax - aMin)) % 256 : ℕ) : Q) / (((aHigh - aLow : ℕ)) : Q))
    else aMax)

/-- The index table of `resize_neighbour`:
`np.ceil(np.arange(0, orig, orig/target)).astype(int)` followed by the
explicit boundary clamp substituting `orig - 1` for any entry equal to
`orig`.  The `i`-th entry of the arange is `i * (orig/target)`. -/
def resizeIndex (orig target : ℕ) : List ℕ :=
  (List.range target).map (fun i =>
    let v : ℕ := (Q.ceil (((i : ℕ) : Q) * ((orig : ℕ) : Q) / ((target : ℕ) : Q))).toNat
    if v = orig then orig - 1 else v)

/-- Embedding of `ImgFormatTransformer.resize_neighbour`.  The code unpacks
`img_array.shape` as `(original_width, original_height, channel)`, so its
"width" is numpy axis 0 and its "height" axis 1; the destination array is
allocated as `np.zeros((width, height, channel))`.  A negative dimension
makes `np.zeros` raise `ValueError`; a zero dimension makes the scale
division `original/target` raise `ZeroDivisionError`; both leave the shared
image state unchanged (`none`). -/
def resize_neighbour (img : GridRGB) (height width : ℤ) : Option GridRGB :=
  if width ≤ 0 ∨ height ≤ 0 then none
  else
    let oW := img.length
    let oH := (img.headD []).length
    let rix := resizeIndex oW width.toNat
    let riy := resizeIndex oH height.toNat
    some (rix.map (fun p => riy.map (fun q => (img.getD p []).getD q (0, 0, 0))))

/-- Bilinear weight combination of one channel of the four neighbours, in
exact arithmetic, then stored into the `uint8` destination array. -/
def bilinearPix (a b c d : ℕ) (xw yw : Q) : ℕ :=
  toU8 ((a : Q) * (1 - xw) * (1 - yw) + (b : Q) * xw * (1 - yw)
    + (c : Q) * yw * (1 - xw) + (d : Q) * xw * yw)

/-- Embedding of `ImgFormatTransformer.bilinear_resize`.  `Image.new` raises
`ValueError` on a negative size (`none`); a zero size is accepted and yields
a degenerate empty destination which IS published as the new current image.
Neighbour fetches use `getD`: in exact arithmetic the floor/ceil indices stay
within the source (only float64 round-up can breach the bound, see C9). -/
def bilinear_resize (img : GridRGB) (height width : ℤ) : Option GridRGB :=
  if width < 0 ∨ height < 0 then none
  else
    let H := img.length
    let W := (img.headD []).length
    let xr : Q := if 1 < width then ((W : Q) - 1) / ((width.toNat : Q) - 1) else 0
    let yr : Q := if 1 < height then ((H : Q) - 1) / ((height.toNat : Q) - 1) else 0
    some ((List.range height.toNat).map (fun i => (List.range width.toNat).map (fun j =>
      let xq : Q := xr * (j : Q)
      let yq : Q := yr * (i : Q)
      let xl : ℕ := (Q.floor xq).toNat
      let xh : ℕ := (Q.ceil xq).toNat
      let yl : ℕ := (Q.floor yq).toNat
      let yh : ℕ := (Q.ceil yq).toNat
      let xw : Q := xq - ((Q.floor xq : ℤ) : Q)
      let yw : Q := yq - ((Q.floor yq : ℤ) : Q)
      let pa := (img.getD yl []).getD xl (0, 0, 0)
      let pb := (img.getD yl []).getD xh (0, 0, 0)
      let pc := (img.getD yh []).getD xl (0, 0, 0)
      let pd := (img.getD yh []).getD xh (0, 0, 0)
      ((bilinearPix pa.1 pb.1 pc.1 pd.1 xw yw,
        bilinearPix pa.2.1 pb.2.1 pc.2.1 pd.2.1 xw yw,
        bilinearPix pa.2.2 pb.2.2 pc.2.2 pd.2.2 xw yw) : Pix))))

/-- Modelled from the spec: the Mitchell-Netravali kernel `bicubic_kernel`
lives in `lib/image_transforms/image_kernels.py`, which is not part of the
provided sources.  Section 4.1 of the specification describes it as the
standard piecewise Mitchell-Netravali cubic on `|x|` with shape parameters
`B` and `C`, zero outside support radius 2. -/
def bicubic_kernel (x B C : Q) : Q :=
  let a := Q.qabs x
  if a < 1 then
    ((12 - 9 * B - 6 * C) * (a * a * a) + (-18 + 12 * B + 6 * C) * (a * a) + (6 - 2 * B)) / 6
  else if a < 2 then
    ((0 - B - 6 * C) * (a * a * a) + (6 * B + 30 * C) * (a * a) + (0 - 12 * B - 48 * C) * a + (8 * B + 24 * C)) / 6
  else 0

/-- Modelled from the spec: `padding` from the missing `image_kernels.py`
pads the plane by 2 samples on each border using edge replication (spec
section 4.2, step 4).  `paddedGet img r c` reads the padded plane at padded
coordinates `(r, c)`, i.e. original coordinates `(r - 2, c - 2)` clamped to
the plane. -/
def paddedGet (img : Plane) (r c : ℤ) : ℕ :=
  let H := img.length
  let W := (img.headD []).length
  let ri : ℕ := (min (max (r - 2) 0) ((H : ℤ) - 1)).toNat
  let ci : ℕ := (min (max (c - 2) 0) ((W : ℤ) - 1)).toNat
  (img.getD ri []).getD ci 0

/-- One destination sample of `ImgFormatTransformer.mitchell` on one channel
plane, before the final `astype(np.uint8)`: the float64 value `dst[j, i, c]`
produced by the 4x4 separable weighted sum (exact in `Q`). -/
def mitchellSampleQ (img : Plane) (Bm Cm : Q) (height width : ℕ) (j i : ℕ) : Q :=
  let H := img.length
  let W := (img.headD []).length
  let xr : Q := if 1 < width then ((W : Q) - 1) / ((width : Q) - 1) else 0
  let yr : Q := if 1 < height then ((H : Q) - 1) / ((height : Q) - 1) else 0
  let x : Q := (i : Q) * xr + 2
  let y : Q := (j : Q) * yr + 2
  let x1 : Q := 1 + x - ((Q.floor x : ℤ) : Q)
  let x2 : Q := x - ((Q.floor x : ℤ) : Q)
  let x3 : Q := ((Q.floor x : ℤ) : Q) + 1 - x
  let x4 : Q := ((Q.floor x : ℤ) : Q) + 2 - x
  let y1 : Q := 1 + y - ((Q.floor y : ℤ) : Q)
  let y2 : Q := y - ((Q.floor y : ℤ) : Q)
  let y3 : Q := ((Q.floor y : ℤ) : Q) + 1 - y
  let y4 : Q := ((Q.floor y : ℤ) : Q) + 2 - y
  let cols := [Q.trunc (x - x1), Q.trunc (x - x2), Q.trunc (x + x3), Q.trunc (x + x4)]
  let rows := [Q.trunc (y - y1), Q.trunc (y - y2), Q.trunc (y + y3), Q.trunc (y + y4)]
  let kxs := [bicubic_kernel x1 Bm Cm, bicubic_kernel x2 Bm Cm,
              bicubic_kernel x3 Bm Cm, bicubic_kernel x4 Bm Cm]
  let kys := [bicubic_kernel y1 Bm Cm, bicubic_kernel y2 Bm Cm,
              bicubic_kernel y3 Bm Cm, bicubic_kernel y4 Bm Cm]
  (((List.zip kxs cols).map (fun kc =>
    ((List.zip kys rows).map (fun kr =>
      kc.1 * kr.1 * ((paddedGet img kr.2 kc.2 : ℕ) : Q))).foldl (fun a b => a + b) 0)).foldl
        (fun a b => a + b) 0)

/-- The sample `mitchell` actually writes: `dst.astype(np.uint8)` truncates
and wraps modulo 256, with no clamping. -/
def mitchellWritten (img : Plane) (Bm Cm : Q) (height width : ℕ) (j i : ℕ) : ℕ :=
  toU8 (mitchellSampleQ img Bm Cm height width j i)

/-- Fuel-bounded floor base-2 logarithm: `log2fuel n n = ⌊log₂ n⌋` for
`n ≥ 1`.  The explicit fuel (consumed once per halving, with early exit)
keeps the recursion structural, so it reduces inside the kernel. -/
def log2fuel : ℕ → ℕ → ℕ
  | 0, _ => 0
  | fuel + 1, n => if 2 ≤ n then log2fuel fuel (n / 2) + 1 else 0

/-- Round the positive rational `a / b` (`a, b ≥ 1`) to the nearest IEEE-754
binary64 value, ties to even, returned as an exact fraction: find the
exponent `e` with `2^e ≤ a/b < 2^(e+1)`, scale the quotient into
`[2^52, 2^53)`, and round the 53-bit significand half-to-even.  The exponent
range (overflow, subnormals) is not modelled: every value the theorems touch
lies well inside the normal range. -/
def fl64pos (a b : ℕ) : Q :=
  let la := log2fuel a a
  let lb := log2fuel b b
  let e : ℤ := if b * 2 ^ la ≤ a * 2 ^ lb then (la : ℤ) - lb else (la : ℤ) - lb - 1
  let N : ℕ := if e ≤ 52 then a * 2 ^ (52 - e).toNat else a
  let D : ℕ := if e ≤ 52 then b else b * 2 ^ (e - 52).toNat
  let m0 : ℕ := N / D
  let r : ℕ := N % D
  let m : ℕ :=
    if 2 * r < D then m0
    else if D < 2 * r then m0 + 1
    else if m0 % 2 = 0 then m0 else m0 + 1
  if 52 ≤ e then ⟨(m : ℤ) * 2 ^ (e - 52).toNat, 1⟩ else Q.mk2 (m : ℤ) ((2 : ℤ) ^ (52 - e).toNat)

/-- IEEE-754 binary64 rounding (round to nearest, ties to even) of an exact
fraction.  This models the machine result of each float operation of the
source: a binary64 operation on exactly-representable operands returns the
correctly rounded exact value. -/
def fl64 (q : Q) : Q :=
  if q.num < 0 then -(fl64pos q.num.natAbs q.den) else fl64pos q.num.natAbs q.den

/-- The ceil-rounded high neighbour x index of `bilinear_resize` exactly as
the machine computes it: `x_ratio = float(S - 1) / (T - 1)` is one binary64
division (operands exactly representable, result correctly rounded),
`x_ratio * j` one binary64 multiplication, and `math.ceil` on a float is
exact; the `T = 1` case uses ratio 0 as in the source. -/
def bilinearXhFloat (S T j : ℕ) : ℤ :=
  let ratio : Q := if 1 < T then fl64 (((S : Q) - 1) / ((T : Q) - 1)) else 0
  Q.ceil (fl64 (ratio * (j : Q)))

/-- Formalisation of the C9 wording: some source dimension `S ≥ 1`, target
dimension `T ≥ 1` and destination index `j < T` make the machine-computed
ceil-rounded neighbour index of `bilinear_resize` equal `S` itself — one
past the last valid source index `S - 1`, so the 2x2 neighbourhood fetch
`image[.., x_h]` reads out of the source bounds (the code has no clamp on
this index, unlike the nearest-neighbour path). -/
def bilinearCeilReachesDim : Prop :=
  ∃ S T j : ℕ, 1 ≤ S ∧ 1 ≤ T ∧ j < T ∧ bilinearXhFloat S T j = (S : ℤ)

/- Concrete inputs used by the theorems. -/

/-- A 16x16 plane holding every intensity `0..255` exactly once: its
histogram is constant 1 in every bucket. -/
def plane16 : Plane :=
  (List.range 16).map (fun r => (List.range 16).map (fun c => 16 * r + c))

/-- A 1x379 plane whose histogram is `h[0] = 30`, `h[1..34] = 10`,
`h[35] = 9`, all other buckets 0. -/
def plane379 : Plane :=
  [List.replicate 30 0 ++ (List.range 34).flatMap (fun k => List.replicate 10 (k + 1))
    ++ List.replicate 9 35]

/-- A 1x257 plane with one 0 and 256 copies of 255: the `uint8` cast
histogram loses the 255 bucket entirely (256 mod 256 = 0). -/
def plane257 : Plane :=
  [0 :: List.replicate 256 255]

/-- A tiny two-value plane for the C8 witness. -/
def planeTwoVal : Plane := [[0, 255], [255, 255]]

/-- A 2x2 RGB source grid with four distinct pixels. -/
def g22 : GridRGB :=
  [[(1, 2, 3), (4, 5, 6)], [(7, 8, 9), (10, 11, 12)]]

/-- A non-square RGB source grid: 2 rows (height 2) by 3 columns (width 3)
under the repository convention that numpy axis 0 is height. -/
def g23 : GridRGB :=
  [[(1, 1, 1), (2, 2, 2), (3, 3, 3)], [(4, 4, 4), (5, 5, 5), (6, 6, 6)]]

/-- The 4x4 plane whose rows are all `[0, 255, 255, 0]`: resampling it to
width 7 with the Catmull-Rom parameters `B = 0`, `C = 1/2` overshoots 255. -/
def img4 : Plane := List.replicate 4 [0, 255, 255, 0]

/-- A 1x256 all-zero plane: intensity 0 occurs 256 times. -/
def plane256 : Plane := [List.replicate 256 0]

/-- A 2x2 plane for the C7 witness. -/
def planeC7 : Plane := [[0, 1], [1, 2]]

/-! Arithmetic facts about the fraction type `Q`. -/

theorem Q.mk2_one (n : ℤ) : Q.mk2 n 1 = ⟨n, 1⟩ := by
  simp [Q.mk2]

theorem Q.mk2_mul_cancel (m : ℤ) (n : ℕ) (hn : n ≠ 0) :
    Q.mk2 (m * (n : ℤ)) (n : ℤ) = ⟨m, 1⟩ := by
  have hz : ((n : ℤ)) ≠ 0 := Int.natCast_ne_zero.mpr hn
  have hlt : ¬ ((n : ℤ) < 0) := by omega
  have hg : Nat.gcd (m * (n : ℤ)).natAbs ((n : ℤ)).natAbs = n := by
    rw [Int.natAbs_mul, Int.natAbs_ofNat]
    calc Nat.gcd (m.natAbs * n) n = Nat.gcd (m.natAbs * n) (1 * n) := by rw [one_mul]
    _ = Nat.gcd m.natAbs 1 * n := Nat.gcd_mul_right _ _ _
    _ = n := by rw [Nat.gcd_one_right, one_mul]
  unfold Q.mk2
  rw [if_neg hz, if_neg hlt]
  show ({ num := (m * (n : ℤ)).tdiv (((m * (n : ℤ)).natAbs.gcd ((n : ℤ)).natAbs : ℕ) : ℤ),
          den := ((n : ℤ)).natAbs / ((m * (n : ℤ)).natAbs.gcd ((n : ℤ)).natAbs) } : Q) = _
  rw [hg, Int.natAbs_ofNat, Nat.div_self (Nat.pos_of_ne_zero hn), Int.mul_tdiv_cancel m hz]

theorem Q.intv_sub (m n : ℤ) : (⟨m, 1⟩ : Q) - ⟨n, 1⟩ = ⟨m - n, 1⟩ := by
  show Q.mk2 (m * ((1 : ℕ) : ℤ) - n * ((1 : ℕ) : ℤ)) (((1 : ℕ) : ℤ) * ((1 : ℕ) : ℤ)) = _
  simp [Q.mk2_one]

theorem Q.intv_mul (m n : ℤ) : (⟨m, 1⟩ : Q) * ⟨n, 1⟩ = ⟨m * n, 1⟩ := by
  show Q.mk2 (m * n) (((1 : ℕ) : ℤ) * ((1 : ℕ) : ℤ)) = _
  simp [Q.mk2_one]

theorem Q.intv_div (m : ℤ) (n : ℕ) (hn : n ≠ 0) :
    (⟨m * (n : ℤ), 1⟩ : Q) / ⟨(n : ℤ), 1⟩ = ⟨m, 1⟩ := by
  show Q.mk2 (m * (n : ℤ) * ((1 : ℕ) : ℤ)) (((1 : ℕ) : ℤ) * (n : ℤ)) = _
  rw [Nat.cast_one, mul_one, one_mul]
  exact Q.mk2_mul_cancel m n hn

theorem Q.natCast_val (a : ℕ) : ((a : ℕ) : Q) = ⟨(a : ℤ), 1⟩ := rfl

theorem Q.ceil_intv (n : ℤ) : Q.ceil ⟨n, 1⟩ = n := by
  simp [Q.ceil, Int.fdiv_one]

theorem toU8_intv (n : ℤ) : toU8 ⟨n, 1⟩ = (n.emod 256).toNat := by
  simp [toU8, Q.trunc, Int.tdiv_one]

/-! Facts about the histogram fold. -/

theorem length_histStep (h : List ℕ) (v : ℕ) : (histStep h v).length = h.length := by
  simp [histStep]

theorem length_foldl_histStep (l acc : List ℕ) :
    (List.foldl histStep acc l).length = acc.length := by
  induction l generalizing acc with
  | nil => rfl
  | cons x t ih => rw [List.foldl_cons, ih, length_histStep]

theorem getD_histStep_self (h : List ℕ) (v : ℕ) (hv : v < h.length) :
    (histStep h v).getD v 0 = h.getD v 0 + 1 := by
  simp [histStep, List.getD_eq_getElem?_getD, List.getElem?_set_self hv]

theorem getD_histStep_ne (h : List ℕ) (v w : ℕ) (hne : v ≠ w) :
    (histStep h v).getD w 0 = h.getD w 0 := by
  simp [histStep, List.getD_eq_getElem?_getD, List.getElem?_set_ne hne]

theorem getD_foldl_histStep (l : List ℕ) (acc : List ℕ) (v : ℕ) (hv : v < acc.length) :
    (List.foldl histStep acc l).getD v 0 = acc.getD v 0 + l.count v := by
  induction l generalizing acc with
  | nil => simp
  | cons x t ih =>
    rw [List.foldl_cons, ih (histStep acc x) (by rw [length_histStep]; exact hv)]
    by_cases hx : x = v
    · subst hx
      rw [getD_histStep_self acc x hv, List.count_cons_self]
      omega
    · rw [getD_histStep_ne acc x v hx, List.count_cons_of_ne (fun h2 => hx h2.symm)]

theorem compute_hist_length (img : Plane) :
    (compute_hist_for_channel img).length = 256 := by
  rw [compute_hist_for_channel, length_foldl_histStep, List.length_replicate]

theorem compute_hist_getD (img : Plane) (v : ℕ) (hv : v < 256) :
    (compute_hist_for_channel img).getD v 0 = img.flatten.count v := by
  rw [compute_hist_for_channel,
    getD_foldl_histStep _ _ v (by rw [List.length_replicate]; exact hv)]
  have hz : (List.replicate 256 (0 : ℕ)).getD v 0 = 0 := by
    rw [List.getD_eq_getElem _ _ (by rw [List.length_replicate]; exact hv),
      List.getElem_replicate]
  rw [hz, Nat.zero_add]

theorem sum_set_succ (h : List ℕ) (v : ℕ) (hv : v < h.length) :
    (h.set v (h.getD v 0 + 1)).sum = h.sum + 1 := by
  induction h generalizing v with
  | nil => simp at hv
  | cons x t ih =>
    cases v with
    | zero =>
      rw [List.getD_cons_zero, List.set_cons_zero, List.sum_cons, List.sum_cons]
      omega
    | succ w =>
      have hw : w < t.length := by simpa using hv
      rw [List.getD_cons_succ, List.set_cons_succ, List.sum_cons, List.sum_cons, ih w hw]
      omega

theorem sum_foldl_histStep (l acc : List ℕ) (hl : ∀ x ∈ l, x < acc.length) :
    (List.foldl histStep acc l).sum = acc.sum + l.length := by
  induction l generalizing acc with
  | nil => simp
  | cons x t ih =>
    rw [List.foldl_cons]
    rw [ih (histStep acc x)
      (fun y hy => by rw [length_histStep]; exact hl y (List.mem_cons_of_mem x hy))]
    have hx : x < acc.length := hl x (List.mem_cons_self x t)
    have hstep : (histStep acc x).sum = acc.sum + 1 := sum_set_succ acc x hx
    rw [hstep, List.length_cons]
    omega

theorem compute_hist_sum (img : Plane) (hv : ∀ x ∈ img.flatten, x < 256) :
    (compute_hist_for_channel img).sum = img.flatten.length := by
  rw [compute_hist_for_channel,
    sum_foldl_histStep _ _ (fun x hx => by rw [List.length_replicate]; exact hv x hx)]
  simp

theorem flatten_length_eq (img : Plane) (hgt wd : ℕ) (hlen : img.length = hgt)
    (hrow : ∀ r ∈ img, r.length = wd) : img.flatten.length = hgt * wd := by
  rw [List.length_flatten]
  have hmap : img.map List.length = List.replicate hgt wd := by
    apply List.eq_replicate_iff.mpr
    constructor
    · rw [List.length_map, hlen]
    · intro b hb
      rcases List.mem_map.mp hb with ⟨r, hr, hb2⟩
      rw [← hb2]
      exact hrow r hr
  rw [hmap, List.sum_replicate, smul_eq_mul]

/-- C7: on every channel plane the histogram has 256 buckets, the bucket
counts sum to exactly `width * height`, and each bucket holds exactly the
number of samples with that value (each sample increments exactly its own
bucket). -/
theorem c7_histogram_invariant (img : Plane) (hgt wd : ℕ)
    (hlen : img.length = hgt) (hrow : ∀ r ∈ img, r.length = wd)
    (hval : ∀ x ∈ img.flatten, x < 256) :
    (compute_hist_for_channel img).length = 256 ∧
    (compute_hist_for_channel img).sum = wd * hgt ∧
    ∀ v, v < 256 → (compute_hist_for_channel img).getD v 0 = img.flatten.count v := by
  refine ⟨compute_hist_length img, ?_, fun v hv => compute_hist_getD img v hv⟩
  rw [compute_hist_sum img hval, flatten_length_eq img hgt wd hlen hrow, Nat.mul_comm]

/-- Witness for C7 on the concrete 2x2 plane `[[0, 1], [1, 2]]`. -/
theorem c7_histogram_invariant_witness :
    (compute_hist_for_channel planeC7).sum = 2 * 2 ∧
    (compute_hist_for_channel planeC7).getD 1 0 = planeC7.flatten.count 1 :=
  ⟨(c7_histogram_invariant planeC7 2 2 (by decide) (by decide) (by decide)).2.1,
   (c7_histogram_invariant planeC7 2 2 (by decide) (by decide) (by decide)).2.2 1 (by decide)⟩

theorem sum_map_mod_le (l : List ℕ) : (l.map (fun c => c % 256)).sum ≤ l.sum := by
  induction l with
  | nil => simp
  | cons x t ih =>
    simp only [List.map_cons, List.sum_cons]
    exact Nat.add_le_add (Nat.mod_le x 256) ih

theorem sum_map_mod_lt (l : List ℕ) (x : ℕ) (hx : x ∈ l) (hge : 256 ≤ x) :
    (l.map (fun c => c % 256)).sum < l.sum := by
  induction l with
  | nil => simp at hx
  | cons y t ih =>
    simp only [List.map_cons, List.sum_cons]
    rcases List.mem_cons.mp hx with hy | ht
    · subst hy
      have h1 : x % 256 < x := lt_of_lt_of_le (Nat.mod_lt x (by omega)) hge
      exact Nat.add_lt_add_of_lt_of_le h1 (sum_map_mod_le t)
    · exact Nat.add_lt_add_of_le_of_lt (Nat.mod_le y 256) (ih ht)

/-- C10: inside contrast correction the histogram is down-cast to `uint8`
before the percentile clip and the tone curve, so every bucket used there is
the true count reduced modulo 256; whenever some intensity occurs at least
256 times, the cast histogram no longer sums to `width * height`. -/
theorem c10_cast_histogram (img : Plane) (hgt wd : ℕ)
    (hlen : img.length = hgt) (hrow : ∀ r ∈ img, r.length = wd)
    (hval : ∀ x ∈ img.flatten, x < 256) :
    (∀ v, v < 256 → (castHist img).getD v 0 = (img.flatten.count v) % 256) ∧
    ((∃ v, v < 256 ∧ 256 ≤ img.flatten.count v) → (castHist img).sum ≠ wd * hgt) := by
  constructor
  · intro v hv
    have h0 : (0 : ℕ) = (fun c => c % 256) 0 := rfl
    rw [castHist, h0, List.getD_map, compute_hist_getD img v hv]
  · rintro ⟨v, hv, hcount⟩
    have hmem : img.flatten.count v ∈ compute_hist_for_channel img := by
      have hvl : v < (compute_hist_for_channel img).length := by
        rw [compute_hist_length]; exact hv
      have hgd : (compute_hist_for_channel img).getD v 0 = (compute_hist_for_channel img)[v] :=
        List.getD_eq_getElem (compute_hist_for_channel img) 0 hvl
      rw [compute_hist_getD img v hv] at hgd
      rw [hgd]
      exact List.getElem_mem hvl
    have hlt : (castHist img).sum < (compute_hist_for_channel img).sum :=
      sum_map_mod_lt _ _ hmem hcount
    rw [compute_hist_sum img hval, flatten_length_eq img hgt wd hlen hrow,
      Nat.mul_comm hgt wd] at hlt
    omega

/-- Witness for C10 on the 1x256 all-zero plane: intensity 0 occurs 256
times, the cast bucket is `256 % 256 = 0`, and the cast histogram sums to 0,
not `256 * 1`. -/
theorem c10_cast_histogram_witness :
    (castHist plane256).getD 0 0 = (plane256.flatten.count 0) % 256 ∧
    (castHist plane256).sum ≠ 256 * 1 :=
  ⟨(c10_cast_histogram plane256 1 256 (by decide) (by decide) (by decide)).1 0 (by decide),
   (c10_cast_histogram plane256 1 256 (by decide) (by decide) (by decide)).2
     ⟨0, by decide, by decide⟩⟩

/-- C1 (code bug): in the Mitchell-Netravali resampler the interpolated
sample `dst[0, 3]` of the plane `img4` (rows `[0, 255, 255, 0]`) at target
size 4x7 with Catmull-Rom parameters `B = 0`, `C = 1/2` is
`2295/8 = 286.875`, which exceeds 255; the code down-casts it with
`astype(np.uint8)` and writes 30 — the value wraps modulo 256 instead of
being clamped, while the specification demands a clamp to `[0, 255]` (which
would write 255). -/
theorem c1_overflow_wraps :
    mitchellSampleQ img4 0 (Q.mk2 1 2) 4 7 0 3 = ⟨2295, 8⟩ ∧
    (255 : Q) < ⟨2295, 8⟩ ∧
    mitchellWritten img4 0 (Q.mk2 1 2) 4 7 0 3 = 30 ∧
    clampedCast ⟨2295, 8⟩ = 255 := by
  decide

/-- C2 (code bug): `resize_neighbour` on the 2x2 source `g22` with requested
target height 3 and width 2 produces a grid with 2 rows and 3 columns — the
axes are swapped relative to the requested `(targetW, targetH)` because the
code unpacks `img_array.shape` as `(width, height, channels)` while every
other path in the repository treats axis 0 as height. -/
theorem c2_axes_swapped :
    resize_neighbour g22 3 2 =
      some [[(1, 2, 3), (4, 5, 6), (4, 5, 6)], [(7, 8, 9), (10, 11, 12), (10, 11, 12)]] ∧
    ([[(1, 2, 3), (4, 5, 6), (4, 5, 6)],
      [(7, 8, 9), (10, 11, 12), (10, 11, 12)]] : GridRGB).length = 2 ∧
    (([[(1, 2, 3), (4, 5, 6), (4, 5, 6)],
      [(7, 8, 9), (10, 11, 12), (10, 11, 12)]] : GridRGB).headD []).length = 3 ∧
    (2 : ℕ) ≠ 3 := by
  decide

/-- C4 counterexample: a request with target width 0 (and height 5) is not
rejected by `bilinear_resize`: no exception is raised, a degenerate empty
grid is produced, and it is published as the new current image. -/
theorem c4_zero_dim_not_rejected :
    bilinear_resize g22 5 0 = some [[], [], [], [], []] ∧
    bilinear_resize g22 5 0 ≠ none := by
  decide

/-- C4 amended: a request with a negative target dimension fails on both the
bilinear and the nearest-neighbour path before the shared image state is
modified, and a zero target dimension also fails on the nearest-neighbour
path (via the zero divisor in the scale computation, after the destination
allocation); only the bilinear path accepts a zero dimension. -/
theorem c4_negative_rejected (img : GridRGB) (h w : ℤ) :
    ((w < 0 ∨ h < 0) → bilinear_resize img h w = none ∧ resize_neighbour img h w = none) ∧
    ((w = 0 ∨ h = 0) → resize_neighbour img h w = none) := by
  constructor
  · intro hneg
    constructor
    · rw [bilinear_resize, if_pos hneg]
    · rw [resize_neighbour, if_pos (by omega)]
  · intro hz
    rw [resize_neighbour, if_pos (by omega)]

/-- Witness for the C4 amended theorem at a concrete negative size. -/
theorem c4_negative_rejected_witness :
    bilinear_resize g22 2 (-1) = none ∧ resize_neighbour g22 2 (-1) = none :=
  (c4_negative_rejected g22 2 (-1)).1 (Or.inl (by decide))

/-- C5 (code bug): on the 16x16 plane holding every intensity exactly once,
`auto_contrast_correction` with `ignore_range = 1/20` takes the clip branch
(the range is truthy, the percentile ranks are 5 and 95), computes
`a_low = a_high = 1`, and the bucket count 1 falls into the middle branch of
the remap formula — so the formula is evaluated with the zero divisor
`a_high - a_low = 0`.  There is no guard: numpy evaluates `0/0`, emits a
`RuntimeWarning`, and propagates NaN into the output instead of failing
loudly. -/
theorem c5_unguarded_zero_divisor :
    (Q.mk2 1 20) ≠ 0 ∧
    (Q.trunc ((Q.mk2 1 20) * 100)).toNat = 5 ∧
    (Q.trunc ((1 - Q.mk2 1 20) * 100)).toNat = 95 ∧
    aLowOf (castHist plane16) (percentileQ (castHist plane16) ((5 : ℕ) : Q)) = 1 ∧
    aHighOf (castHist plane16) (percentileQ (castHist plane16) ((95 : ℕ) : Q)) = 1 ∧
    1 ∈ castHist plane16 := by
  decide

/-- C6 counterexample: on `plane379` with `ignore_range = 1/8` the clip
bounds are `a_low = 0`, `a_high = 10` and `a_max = 30`; for the bucket whose
count is 9 the code computes the `uint8` product `9 * 30 = 270 ≡ 14`,
divides by 10 and truncates to 1, while the formula stated by the claim
yields `0 + 9 * 30 / 10 = 27`. -/
theorem c6_wrap_counterexample :
    (auto_contrast_correction plane379 (Q.mk2 1 8)).getD 35 0 = 1 ∧
    (specRemapC6 (castHist plane379) (Q.mk2 1 8)).getD 35 0 = ⟨27, 1⟩ ∧
    ((1 : ℕ) : Q) ≠ ⟨27, 1⟩ := by
  decide

/-- C8 counterexample: the 1x257 plane with one 0 and 256 copies of 255
contains exactly the two values `{0, 255}`, yet contrast correction with
`ignore_range = 0` produces no valid plane at all: the `uint8` cast loses the
255 bucket (`256 % 256 = 0`), the cumulative histogram is constant, and the
stretch divides by zero (NaN), so no output maps the maximum to 255. -/
theorem c8_nan_counterexample :
    contrastChannel plane257 0 = none := by
  decide

/-! Index arithmetic for the nearest-neighbour identity (C3). -/

theorem getD_range_map (l : List α) (d : α) :
    (List.range l.length).map (fun q => l.getD q d) = l := by
  apply List.ext_getElem
  · simp
  · intro i h1 h2
    simp only [List.getElem_map, List.getElem_range]
    exact List.getD_eq_getElem l d h2

theorem resizeIndex_self (n : ℕ) (hn : n ≠ 0) : resizeIndex n n = List.range n := by
  apply List.ext_getElem
  · simp [resizeIndex]
  · intro i h1 h2
    have hilt : i < n := by simpa using h2
    simp only [resizeIndex, List.getElem_map, List.getElem_range]
    have hv : (Q.ceil (((i : ℕ) : Q) * ((n : ℕ) : Q) / ((n : ℕ) : Q))).toNat = i := by
      rw [Q.natCast_val, Q.natCast_val, Q.intv_mul, Q.intv_div (i : ℤ) n hn, Q.ceil_intv]
      exact Int.toNat_natCast i
    rw [hv, if_neg (by omega)]

/-- C3 counterexample: under the repository convention (numpy axis 0 is
height: the reader, the display path, bilinear and mitchell all use it) the
2x3 source `g23` resampled by `resize_neighbour` to its true dimensions —
target height 2 (its row count) and target width 3 (its column count) — is
not returned unchanged: the swapped shape unpack produces a 3-row x 2-column
grid instead, so the operation is not the identity. -/
theorem c3_true_dims_not_identity :
    resize_neighbour g23 2 3 =
      some [[(1, 1, 1), (3, 3, 3)], [(4, 4, 4), (6, 6, 6)], [(4, 4, 4), (6, 6, 6)]] ∧
    resize_neighbour g23 2 3 ≠ some g23 := by
  decide

/-- C3 amended: `resize_neighbour` returns every sample unchanged exactly
when the requested parameters are matched to the code's own swapped reading
of the shape: the width parameter must equal the source's row count `R`
(numpy axis 0, unpacked as `original_width`) and the height parameter the
source's column count `C`.  Then the scale is 1 on both axes, the
scaled-and-ceiled index tables are the identity, and the boundary clamp
never fires.  On a square grid this coincides with the original claim; for a
non-square grid the true-dimension request is not the identity (see the
counterexample). -/
theorem c3_neighbour_identity (img : GridRGB) (R C : ℕ)
    (hlen : img.length = R) (hrow : ∀ r ∈ img, r.length = C)
    (hR : 0 < R) (hC : 0 < C) :
    resize_neighbour img (C : ℤ) (R : ℤ) = some img := by
  rw [resize_neighbour, if_neg (by omega)]
  have hhead : (img.headD []).length = C := by
    cases img with
    | nil => rw [List.length_nil] at hlen; omega
    | cons r t => exact hrow r (List.mem_cons_self r t)
  rw [hlen, hhead, Int.toNat_natCast, Int.toNat_natCast]
  simp only [resizeIndex_self R (by omega : R ≠ 0), resizeIndex_self C (by omega : C ≠ 0)]
  congr 1
  apply List.ext_getElem
  · simp [hlen]
  · intro p h1 h2
    simp only [List.getElem_map, List.getElem_range]
    have hp : p < R := by simpa [hlen] using h1
    have hgd : img.getD p [] = img[p] := List.getD_eq_getElem img [] h2
    rw [hgd]
    have hrl : img[p].length = C := hrow _ (List.getElem_mem h2)
    rw [← hrl]
    exact getD_range_map img[p] (0, 0, 0)

/-- Witness for the C3 amended theorem at the non-square 2x3 grid `g23`:
with the parameters given in the code's swapped sense (width dialog = row
count 2, height dialog = column count 3) the grid comes back unchanged. -/
theorem c3_neighbour_identity_witness : resize_neighbour g23 3 2 = some g23 :=
  c3_neighbour_identity g23 2 3 (by decide) (by decide) (by decide) (by decide)

/-- C6 amended: for a truthy ignore range (with non-degenerate clip bounds,
so that the zero-divisor NaN case of C5 is excluded) the remap the code
performs on the cast histogram is exactly the amended description: truncated
integer percentile ranks, modulo-256 product, `uint8`-truncated result. -/
theorem c6_amended_remap (img : Plane) (ir : Q)
    (hpos : (0 : Q) < ir) (_hhalf : ir ≤ Q.mk2 1 2)
    (_hdeg : aLowOf (castHist img)
        (percentileQ (castHist img) (((Q.trunc (ir * 100)).toNat : ℕ) : Q)) <
      aHighOf (castHist img)
        (percentileQ (castHist img) (((Q.trunc ((1 - ir) * 100)).toNat : ℕ) : Q))) :
    auto_contrast_correction img ir = amendedRemapC6 (castHist img) ir := by
  have hne : ir ≠ 0 := by
    intro h0
    rw [h0] at hpos
    exact absurd hpos (by decide)
  rw [auto_contrast_correction, if_neg hne]
  rfl

/-- Witness for the C6 amended theorem at `plane379` and ignore range 1/8. -/
theorem c6_amended_remap_witness :
    auto_contrast_correction plane379 (Q.mk2 1 8) =
      amendedRemapC6 (castHist plane379) (Q.mk2 1 8) :=
  c6_amended_remap plane379 (Q.mk2 1 8) (by decide) (by decide) (by decide)

/-! Shape of the cumulative histogram for a two-valued plane (C8). -/

theorem castHist_length (img : Plane) : (castHist img).length = 256 := by
  rw [castHist, List.length_map, compute_hist_length]

theorem castHist_getD (img : Plane) (v : ℕ) (hv : v < 256) :
    (castHist img).getD v 0 = img.flatten.count v % 256 := by
  have h0 : (0 : ℕ) = (fun c => c % 256) 0 := rfl
  rw [castHist, h0, List.getD_map, compute_hist_getD img v hv]

theorem castHist_eq_rangeMap (img : Plane) :
    castHist img = (List.range 256).map (fun v => img.flatten.count v % 256) := by
  apply List.ext_getElem
  · rw [castHist_length, List.length_map, List.length_range]
  · intro v h1 h2
    have hv : v < 256 := by rwa [castHist_length] at h1
    rw [← List.getD_eq_getElem (castHist img) 0 h1, castHist_getD img v hv,
      List.getElem_map, List.getElem_range]

theorem sum_range_map_succ (f : ℕ → ℕ) (n : ℕ) :
    ((List.range (n + 1)).map f).sum = ((List.range n).map f).sum + f n := by
  rw [List.range_succ, List.map_append, List.sum_append]
  simp

theorem sum_range_map_support (f : ℕ → ℕ) (hsupp : ∀ v, v ≠ 0 → v ≠ 255 → f v = 0) :
    ∀ m, 1 ≤ m → m ≤ 255 → ((List.range m).map f).sum = f 0 := by
  intro m
  induction m with
  | zero => intro h1 _; omega
  | succ k ih =>
    intro _ h2
    cases Nat.eq_zero_or_pos k with
    | inl hk =>
      subst hk
      rw [show List.range 1 = [0] from rfl]
      simp
    | inr hk =>
      rw [sum_range_map_succ, ih hk (by omega), hsupp k (by omega) (by omega),
        Nat.add_zero]

theorem cumsum_castHist_twoval (img : Plane)
    (hmem : ∀ x ∈ img.flatten, x = 0 ∨ x = 255) :
    cumsum (castHist img) =
      List.replicate 255 (img.flatten.count 0 % 256) ++
        [img.flatten.count 0 % 256 + img.flatten.count 255 % 256] := by
  have hsupp : ∀ v, v ≠ 0 → v ≠ 255 → img.flatten.count v % 256 = 0 := by
    intro v hv0 hv255
    have hnot : v ∉ img.flatten := by
      intro hvm
      rcases hmem v hvm with h | h
      · exact hv0 h
      · exact hv255 h
    rw [List.count_eq_zero_of_not_mem hnot]
  apply List.ext_getElem
  · simp only [cumsum, List.length_map, List.length_range, castHist_length,
      List.length_append, List.length_replicate, List.length_singleton]
  · intro k h1 h2
    have hk : k < 256 := by
      simp only [cumsum, List.length_map, List.length_range, castHist_length] at h1
      exact h1
    simp only [cumsum, List.getElem_map, List.getElem_range, castHist_length,
      castHist_eq_rangeMap img]
    have htake : ((List.range 256).map (fun v => img.flatten.count v % 256)).take (k + 1)
        = (List.range (k + 1)).map (fun v => img.flatten.count v % 256) := by
      rw [← List.map_take, List.take_range, Nat.min_eq_left (by omega)]
    rw [htake]
    by_cases hlast : k < 255
    · rw [sum_range_map_support _ hsupp (k + 1) (by omega) (by omega)]
      rw [List.getElem_append_left (by rw [List.length_replicate]; omega),
        List.getElem_replicate]
    · have hk255 : k = 255 := by omega
      subst hk255
      rw [sum_range_map_succ, sum_range_map_support _ hsupp 255 (by omega) (by omega)]
      rw [List.getElem_append_right (by rw [List.length_replicate])]
      simp

theorem foldl_min_replicate (a : ℕ) : ∀ n, List.foldl Nat.min a (List.replicate n a) = a := by
  intro n
  induction n with
  | zero => rfl
  | succ k ih =>
    rw [List.replicate_succ, List.foldl_cons]
    have hmin : Nat.min a a = a := Nat.min_self a
    rw [hmin]
    exact ih

theorem foldl_max_replicate (a : ℕ) : ∀ n, List.foldl Nat.max a (List.replicate n a) = a := by
  intro n
  induction n with
  | zero => rfl
  | succ k ih =>
    rw [List.replicate_succ, List.foldl_cons]
    have hmax : Nat.max a a = a := Nat.max_self a
    rw [hmax]
    exact ih

theorem listMin_shape (a b : ℕ) : listMin (List.replicate 255 a ++ [a + b]) = a := by
  rw [show (255 : ℕ) = 254 + 1 from rfl, List.replicate_succ, List.cons_append]
  show List.foldl Nat.min a (List.replicate 254 a ++ [a + b]) = a
  rw [List.foldl_append, foldl_min_replicate a 254, List.foldl_cons, List.foldl_nil]
  exact Nat.min_eq_left (Nat.le_add_right a b)

theorem listMax_shape (a b : ℕ) : listMax (List.replicate 255 a ++ [a + b]) = a + b := by
  rw [show (255 : ℕ) = 254 + 1 from rfl, List.replicate_succ, List.cons_append]
  show List.foldl Nat.max a (List.replicate 254 a ++ [a + b]) = a + b
  rw [List.foldl_append, foldl_max_replicate a 254, List.foldl_cons, List.foldl_nil]
  exact Nat.max_eq_right (Nat.le_add_right a b)

theorem Q.natCast_sub_val (a b : ℕ) :
    ((a : ℕ) : Q) - ((b : ℕ) : Q) = ⟨(a : ℤ) - (b : ℤ), 1⟩ := by
  rw [Q.natCast_val, Q.natCast_val, Q.intv_sub]

theorem scaledF_lo (a b : ℕ) (hb : b ≠ 0) :
    toU8 ((((a : ℕ) : Q) - ((a : ℕ) : Q)) * 255 / (((a + b : ℕ) : Q) - ((a : ℕ) : Q))) = 0 := by
  rw [Q.natCast_sub_val a a, Q.natCast_sub_val (a + b) a]
  have h1 : ((a : ℤ)) - (a : ℤ) = 0 := by omega
  have h2 : (((a + b : ℕ) : ℤ)) - (a : ℤ) = (b : ℤ) := by push_cast; omega
  rw [h1, h2]
  rw [show (255 : Q) = ⟨255, 1⟩ from rfl, Q.intv_mul, zero_mul]
  rw [show (⟨0, 1⟩ : Q) = ⟨0 * (b : ℤ), 1⟩ by rw [zero_mul]]
  rw [Q.intv_div 0 b hb]
  decide

theorem scaledF_hi (a b : ℕ) (hb : b ≠ 0) :
    toU8 ((((a + b : ℕ) : Q) - ((a : ℕ) : Q)) * 255
      / (((a + b : ℕ) : Q) - ((a : ℕ) : Q))) = 255 := by
  rw [Q.natCast_sub_val (a + b) a]
  have h2 : (((a + b : ℕ) : ℤ)) - (a : ℤ) = (b : ℤ) := by push_cast; omega
  rw [h2]
  rw [show (255 : Q) = ⟨255, 1⟩ from rfl, Q.intv_mul]
  rw [show ((b : ℤ)) * 255 = 255 * (b : ℤ) from Int.mul_comm _ _]
  rw [Q.intv_div 255 b hb]
  rw [toU8_intv]
  decide

/-- C8 amended: with `ignore_range = 0` the percentile clip is skipped and
only the cumulative stretch runs; on a plane containing exactly the values
`{0, 255}`, provided the number of 255-valued samples is not a multiple of
256 (otherwise the `uint8` histogram cast of C10 empties that bucket and the
stretch divides by zero — see the counterexample), the corrected plane maps
every 0 to 0 and every 255 to 255, i.e. the plane is returned unchanged. -/
theorem c8_equalization_amended (img : Plane)
    (hmem : ∀ x ∈ img.flatten, x = 0 ∨ x = 255)
    (_hzero : 0 ∈ img.flatten)
    (hq : img.flatten.count 255 % 256 ≠ 0) :
    contrastChannel img 0 = some img := by
  have hcs := cumsum_castHist_twoval img hmem
  rw [contrastChannel]
  rw [show auto_contrast_correction img 0 = castHist img from by
    rw [auto_contrast_correction, if_pos rfl]]
  simp only [image_channel_from_hist, hcs, listMin_shape, listMax_shape]
  rw [if_neg (by omega)]
  rw [List.map_append, List.map_replicate, List.map_cons, List.map_nil]
  rw [scaledF_lo _ _ hq, scaledF_hi _ _ hq]
  congr 1
  have hlook : ∀ v, v = 0 ∨ v = 255 →
      (List.replicate 255 (0 : ℕ) ++ [255]).getD v 0 = v := by
    intro v hv
    rcases hv with hv | hv
    · subst hv
      rw [List.getD_append _ _ _ _ (by rw [List.length_replicate]; omega)]
      rw [List.getD_eq_getElem _ _ (by rw [List.length_replicate]; omega),
        List.getElem_replicate]
    · subst hv
      rw [List.getD_append_right _ _ _ _ (by rw [List.length_replicate])]
      simp
  have houter : ∀ row ∈ img, row.map
      (fun v => (List.replicate 255 (0 : ℕ) ++ [255]).getD v 0) = row := by
    intro row hrow
    have hinner : ∀ v ∈ row, (List.replicate 255 (0 : ℕ) ++ [255]).getD v 0 = v := by
      intro v hv
      exact hlook v (hmem v (List.mem_flatten.mpr ⟨row, hrow, hv⟩))
    calc row.map (fun v => (List.replicate 255 (0 : ℕ) ++ [255]).getD v 0)
        = row.map (fun v => v) := List.map_congr_left hinner
    _ = row := List.map_id' row
  calc img.map (fun row => row.map
        (fun v => (List.replicate 255 (0 : ℕ) ++ [255]).getD v 0))
      = img.map (fun row => row) := List.map_congr_left houter
  _ = img := List.map_id' img

/-- Witness for the C8 amended theorem at the 2x2 plane `[[0,255],[255,255]]`. -/
theorem c8_equalization_amended_witness :
    contrastChannel planeTwoVal 0 = some planeTwoVal :=
  c8_equalization_amended planeTwoVal (by decide) (by decide) (by decide)

/-- C9: the unclamped ceil-rounded neighbour index of `bilinear_resize` can
reach the source dimension, an out-of-bounds read.  At source width 4 and
target width 188, destination index 187, the binary64 computation gives
`fl(fl(3/187) * 187) = 6755399441055745 / 2^51 = 3.0000000000000004`, whose
ceiling is 4 — one past the last valid source index 3. -/
theorem c9_float_ceil_oob : bilinearCeilReachesDim :=
  ⟨4, 188, 187, by decide, by decide, by decide, by decide⟩

end CG22
